import Mathlib

/-!
Verification of the multi-valued SE(3) exponential-map transform layer
(`relie/se3_exp_transform.py`): the three transform variants
`SE3ExpTransform`, `SE3ExpCompactTransform`, `SE3ExpBijectiveTransform`,
their inverse-set enumeration, validity masking, zero-fill policy and
Jacobian plumbing.

The group primitives (`se3_exp`, `se3_log`, `se3_xset`,
`se3_log_abs_det_jacobian`, from `relie.utils.se3_tools`) are external to
the transform layer; they are modelled here from the specification.
Tensors are idealised as single (unbatched) elements over exact reals.
-/

/-- An element of the Lie algebra se(3): six real components, the first three
rotational (a rotation vector), the last three translational, matching the
shape `(..., 6)` convention of the code where `x[..., :3]` is rotational. -/
abbrev SE3Alg := Fin 6 → ℝ

/-- The all-zero algebra element (the value `masked_fill_(…, 0)` writes). -/
def zeroAlg : SE3Alg := fun _ => 0

/-- Squared Euclidean norm of the first three (rotational) components. -/
def rotNormSq (v : SE3Alg) : ℝ := v 0 ^ 2 + v 1 ^ 2 + v 2 ^ 2

/-- Euclidean norm of the first three (rotational) components, the
`x[..., :3].norm(dim=-1)` of the code. -/
noncomputable def rotNorm (v : SE3Alg) : ℝ := Real.sqrt (rotNormSq v)

/-- Modelled from the spec: the winding-`k` branch of the periodic preimage
family produced by `se3_xset` (`relie.utils.se3_tools`, not in src/).
Per spec section 4.1, the branch is the algebra element whose rotation-vector
magnitude is `theta + 2*pi*k` along the same axis (a default axis, here the
first coordinate axis, when `theta = 0`), with the translational components
preserved unchanged; `k = 0` reproduces the input exactly. -/
noncomputable def se3_shift (x : SE3Alg) (k : ℤ) : SE3Alg := fun i =>
  if (i : ℕ) < 3 then
    if rotNorm x = 0 then
      2 * Real.pi * (k : ℝ) * (if (i : ℕ) = 0 then 1 else 0)
    else
      (rotNorm x + 2 * Real.pi * (k : ℝ)) / rotNorm x * x i
  else x i

/-- Modelled from the spec: `se3_xset` (`relie.utils.se3_tools`, not in src/):
the ordered sequence of periodicity-shifted branches of the principal algebra
element `x`, one per integer winding index `k` in `[-k_max, k_max]` inclusive,
so `2*k_max + 1` candidates. -/
noncomputable def se3_xset (x : SE3Alg) (k_max : ℕ) : List SE3Alg :=
  (List.range (2 * k_max + 1)).map fun (j : ℕ) =>
    se3_shift x ((j : ℤ) - (k_max : ℤ))

/-- Modelled from the spec: a group element of SE(3), represented here by its
principal logarithm (the rotation angle wrapped into `[0, pi]`, the
injectivity radius); the primitives `se3_exp` and `se3_log`
(`relie.utils.se3_tools`) are not in src/. -/
structure SE3Group where
  log_val : SE3Alg

/-- Modelled from the spec: the representative of a rotation angle `t` modulo
the `2*pi` periodicity, chosen in `(-pi, pi]`; a negative value means the
axis is flipped so that the rotation-vector magnitude stays in `[0, pi]`. -/
noncomputable def wrapAngle (t : ℝ) : ℝ :=
  if t - 2 * Real.pi * (⌊t / (2 * Real.pi)⌋ : ℝ) ≤ Real.pi then
    t - 2 * Real.pi * (⌊t / (2 * Real.pi)⌋ : ℝ)
  else
    t - 2 * Real.pi * (⌊t / (2 * Real.pi)⌋ : ℝ) - 2 * Real.pi

/-- Modelled from the spec: canonicalisation of an algebra element to the
principal preimage: the rotation angle is wrapped into the injectivity ball
(magnitude at most `pi`, same axis up to flip), translational components
unchanged. `se3_log (se3_exp x)` returns exactly this value. -/
noncomputable def se3_principal (x : SE3Alg) : SE3Alg :=
  if rotNorm x = 0 then x
  else fun i =>
    if (i : ℕ) < 3 then wrapAngle (rotNorm x) / rotNorm x * x i else x i

/-- Modelled from the spec: the exponential map `se3_exp`
(`relie.utils.se3_tools`, not in src/), mapping an algebra element to the
group element it generates; branches differing by a winding map to the same
group element. -/
noncomputable def se3_exp (x : SE3Alg) : SE3Group := ⟨se3_principal x⟩

/-- Modelled from the spec: the principal logarithm `se3_log`
(`relie.utils.se3_tools`, not in src/), returning the principal (k = 0)
preimage of a group element. -/
def se3_log (y : SE3Group) : SE3Alg := y.log_val

/-- Modelled from the spec: `se3_log_abs_det_jacobian`
(`relie.utils.se3_tools`, not in src/): the log of the absolute determinant
of the differential of the exponential map at `x`; for SE(3) it is a function
of the rotation angle alone (twice the SO(3) value `log (2*(1 - cos t)/t^2)`). -/
noncomputable def se3_log_abs_det_jacobian (x : SE3Alg) : ℝ :=
  2 * Real.log (2 * (1 - Real.cos (rotNorm x)) / rotNorm x ^ 2)

/-- Source `masked_fill_(~mask[..., None], 0)`: zero the candidates whose mask entry
is false, keep the rest. -/
def maskedFillZero (xs : List SE3Alg) (mask : List Bool) : List SE3Alg :=
  (xs.zip mask).map fun p => if p.2 = true then p.1 else zeroAlg

/-- Source class `SE3ExpTransform`: full-window multi-valued variant, configured by the
winding half-width `k_max` (source default 5). -/
structure SE3ExpTransform where
  k_max : ℕ

/-- The source's default construction `SE3ExpTransform()` with `k_max = 5`. -/
def SE3ExpTransform.default : SE3ExpTransform := ⟨5⟩

/-- Source class `SE3ExpTransform._call`: the forward map, `se3_exp(x)`. -/
noncomputable def SE3ExpTransform.call (_t : SE3ExpTransform) (x : SE3Alg) :
    SE3Group :=
  se3_exp x

/-- Source class `SE3ExpTransform._xset`: branches for `k` in `[-k_max, k_max]` and an
all-true mask (`torch.full(xset.shape[:-1], True)`), returned together with
the principal element `x`. -/
noncomputable def SE3ExpTransform.xset (t : SE3ExpTransform) (x : SE3Alg) :
    SE3Alg × List SE3Alg × List Bool :=
  let xs := se3_xset x t.k_max
  (x, xs, List.replicate xs.length true)

/-- Source class `SE3ExpTransform._inverse_set`: `self._xset(se3_log(y))`. -/
noncomputable def SE3ExpTransform.inverse_set (t : SE3ExpTransform)
    (y : SE3Group) : SE3Alg × List SE3Alg × List Bool :=
  t.xset (se3_log y)

/-- Source class `SE3ExpTransform.log_abs_det_jacobian`:
`se3_log_abs_det_jacobian(x).float()` (the dtype cast is dropped in the
real-number idealisation). -/
noncomputable def SE3ExpTransform.log_abs_det_jacobian (_t : SE3ExpTransform)
    (x : SE3Alg) (_y : SE3Group) : ℝ :=
  se3_log_abs_det_jacobian x

/-- Source class `SE3ExpCompactTransform`: bounded-radius multi-valued variant, configured
by `support_radius` (source default `2 * math.pi`). -/
structure SE3ExpCompactTransform where
  support_radius : ℝ

/-- The source's default construction `SE3ExpCompactTransform()` with
`support_radius = 2 * math.pi`. -/
noncomputable def SE3ExpCompactTransform.default : SE3ExpCompactTransform :=
  ⟨2 * Real.pi⟩

/-- Source class `SE3ExpCompactTransform._call`: the forward map, `se3_exp(x)`. -/
noncomputable def SE3ExpCompactTransform.call (_t : SE3ExpCompactTransform)
    (x : SE3Alg) : SE3Group :=
  se3_exp x

/-- Source class `SE3ExpCompactTransform._xset`:
`xset = se3_xset(x, 1)`; `norms = xset[...,:3].norm(dim=-1)`;
`mask = norms < support_radius`; `xset = xset.masked_fill_(~mask[...,None], 0)`;
`return x, xset, mask`. -/
noncomputable def SE3ExpCompactTransform.xset (t : SE3ExpCompactTransform)
    (x : SE3Alg) : SE3Alg × List SE3Alg × List Bool :=
  let xs := se3_xset x 1
  let mask := xs.map fun c => decide (rotNorm c < t.support_radius)
  (x, maskedFillZero xs mask, mask)

/-- Source class `SE3ExpCompactTransform._inverse_set`: `self._xset(se3_log(y))`. -/
noncomputable def SE3ExpCompactTransform.inverse_set
    (t : SE3ExpCompactTransform) (y : SE3Group) :
    SE3Alg × List SE3Alg × List Bool :=
  t.xset (se3_log y)

/-- Source class `SE3ExpCompactTransform.log_abs_det_jacobian`:
`se3_log_abs_det_jacobian(x).float()`. -/
noncomputable def SE3ExpCompactTransform.log_abs_det_jacobian
    (_t : SE3ExpCompactTransform) (x : SE3Alg) (_y : SE3Group) : ℝ :=
  se3_log_abs_det_jacobian x

/-- Source class `SE3ExpBijectiveTransform`: strictly bijective single-valued
variant. Unlike the other two variants, its constructor is
`super().__init__(1)`: it passes `cache_size = 1` to the external
`torch.distributions.Transform` base class, so the object carries a one-entry
memo cache `self._cached_x_y` holding the last `(x, y)` pair seen by its
public forward/inverse wrappers (empty on a fresh object). -/
structure SE3ExpBijectiveTransform where
  cached_x_y : Option (SE3Alg × SE3Group)

/-- Source class `SE3ExpBijectiveTransform._call`: the forward map, `se3_exp(x)`. -/
noncomputable def SE3ExpBijectiveTransform.call
    (_t : SE3ExpBijectiveTransform) (x : SE3Alg) : SE3Group :=
  se3_exp x

/-- Source class `SE3ExpBijectiveTransform._inverse`: `se3_log(y)`, a single algebra
element — no branch enumeration, no validity mask. -/
def SE3ExpBijectiveTransform.inverse (_t : SE3ExpBijectiveTransform)
    (y : SE3Group) : SE3Alg :=
  se3_log y

/-- Source class `SE3ExpBijectiveTransform.log_abs_det_jacobian`:
`se3_log_abs_det_jacobian(x).float()`. -/
noncomputable def SE3ExpBijectiveTransform.log_abs_det_jacobian
    (_t : SE3ExpBijectiveTransform) (x : SE3Alg) (_y : SE3Group) : ℝ :=
  se3_log_abs_det_jacobian x

/-- Source `SE3ExpBijectiveTransform.__init__`: `super().__init__(1)` sets
`cache_size = 1` on the `torch.distributions.Transform` base class; the fresh
object's memo cache `self._cached_x_y` is empty (`(None, None)`). -/
def SE3ExpBijectiveTransform.init : SE3ExpBijectiveTransform := ⟨none⟩

open Classical in
/-- Modelled from the external base class: `torch.distributions.Transform.__call__`
with `cache_size = 1`, the public forward wrapper the source configures via
`super().__init__(1)`. It reads `x_old, y_old = self._cached_x_y`; on a cache
hit it returns the memoized `y_old` with no recomputation; otherwise it runs
`_call` and stores `self._cached_x_y = x, y`. State-passing embedding: the
second component is the object state after the call; the identity test
`x is x_old` is modelled as equality. -/
noncomputable def SE3ExpBijectiveTransform.callS
    (t : SE3ExpBijectiveTransform) (x : SE3Alg) :
    SE3Group × SE3ExpBijectiveTransform :=
  match t.cached_x_y with
  | none =>
      let y := t.call x
      (y, ⟨some (x, y)⟩)
  | some (x_old, y_old) =>
      if x = x_old then (y_old, t)
      else
        let y := t.call x
        (y, ⟨some (x, y)⟩)

open Classical in
/-- Modelled from the external base class: `torch.distributions.Transform._inv_call`
with `cache_size = 1`, the public inverse wrapper. On a cache hit (`y is
y_old`, modelled as equality) it returns the memoized `x_old` with no
recomputation; otherwise it runs `_inverse` and stores
`self._cached_x_y = x, y`. -/
noncomputable def SE3ExpBijectiveTransform.inverseS
    (t : SE3ExpBijectiveTransform) (y : SE3Group) :
    SE3Alg × SE3ExpBijectiveTransform :=
  match t.cached_x_y with
  | none =>
      let x := t.inverse y
      (x, ⟨some (x, y)⟩)
  | some (x_old, y_old) =>
      if y = y_old then (x_old, t)
      else
        let x := t.inverse y
        (x, ⟨some (x, y)⟩)

/-- The all-one algebra element, used to poison the memo cache with a group
element that the forward map never produces from the zero element. -/
def oneAlg : SE3Alg := fun _ => 1

/-- The rotational norm is a square root, hence nonnegative. -/
theorem rotNorm_nonneg (v : SE3Alg) : 0 ≤ rotNorm v := Real.sqrt_nonneg _

/-- The all-zero algebra element has rotational norm zero. -/
theorem rotNorm_zeroAlg : rotNorm zeroAlg = 0 := by
  simp [rotNorm, rotNormSq, zeroAlg]

/-- The one-winding branch list spelled out: windings -1, 0, 1 in order. -/
theorem se3_xset_one (x : SE3Alg) :
    se3_xset x 1 = [se3_shift x (-1), se3_shift x 0, se3_shift x 1] := by
  have h3 : 2 * 1 + 1 = 3 := by norm_num
  simp only [se3_xset, h3]
  simp [List.range_succ]

/-- With no rotation, the winding -1 branch is the one-period rotation about
the default axis: its rotational norm is `2 * pi`. -/
theorem rotNorm_shift_zero_neg_one :
    rotNorm (se3_shift zeroAlg (-1)) = 2 * Real.pi := by
  have h1 : rotNormSq (se3_shift zeroAlg (-1)) = (2 * Real.pi) ^ 2 := by
    simp [rotNormSq, se3_shift, rotNorm_zeroAlg, zeroAlg]
  rw [rotNorm, h1, Real.sqrt_sq (by positivity)]

/-- With no rotation, the winding 0 branch is again the zero element, of
rotational norm zero. -/
theorem rotNorm_shift_zero_zero : rotNorm (se3_shift zeroAlg 0) = 0 := by
  simp [rotNorm, rotNormSq, se3_shift, rotNorm_zeroAlg, zeroAlg]

/-- The branch generator returns `2*k_max + 1` candidates. -/
theorem se3_xset_length (x : SE3Alg) (k_max : ℕ) :
    (se3_xset x k_max).length = 2 * k_max + 1 := by
  unfold se3_xset
  rw [List.length_map, List.length_range]

/-- Zero-filling never changes the candidate count. -/
theorem maskedFillZero_length (xs : List SE3Alg) (m : List Bool) :
    (maskedFillZero xs m).length = min xs.length m.length := by
  unfold maskedFillZero
  rw [List.length_map, List.length_zip]

/-- Wrapping fixes every angle already inside `[0, pi)`. -/
theorem wrapAngle_eq_self (t : ℝ) (h0 : 0 ≤ t) (h : t < Real.pi) :
    wrapAngle t = t := by
  have h2 : (0 : ℝ) < 2 * Real.pi := by positivity
  have hf : ⌊t / (2 * Real.pi)⌋ = 0 := by
    rw [Int.floor_eq_zero_iff, Set.mem_Ico]
    refine ⟨div_nonneg h0 h2.le, ?_⟩
    rw [div_lt_one h2]
    linarith [Real.pi_pos]
  unfold wrapAngle
  rw [hf]
  push_cast
  rw [mul_zero, sub_zero, if_pos h.le]

/-- Canonicalisation is the identity strictly inside the injectivity ball. -/
theorem se3_principal_eq_self (x : SE3Alg) (h : rotNorm x < Real.pi) :
    se3_principal x = x := by
  unfold se3_principal
  by_cases h0 : rotNorm x = 0
  · rw [if_pos h0]
  · rw [if_neg h0]
    funext i
    by_cases hi : (i : ℕ) < 3
    · rw [if_pos hi, wrapAngle_eq_self _ (rotNorm_nonneg x) h, div_self h0,
        one_mul]
    · rw [if_neg hi]

/-- C1: for every algebra element `x` whose rotational norm is below the
injectivity radius `pi`, the `representative_x` component of
`inverse_set(forward(x))` equals `x`, for both multi-valued transforms
`SE3ExpTransform` and `SE3ExpCompactTransform`. -/
theorem se3_exp_roundtrip (t1 : SE3ExpTransform) (t2 : SE3ExpCompactTransform)
    (x : SE3Alg) (h : rotNorm x < Real.pi) :
    (t1.inverse_set (t1.call x)).1 = x ∧ (t2.inverse_set (t2.call x)).1 = x :=
  ⟨se3_principal_eq_self x h, se3_principal_eq_self x h⟩

/-- Witness for C1 at the all-zero algebra element and the default-configured
transforms. -/
theorem se3_exp_roundtrip_witness :
    rotNorm zeroAlg < Real.pi ∧
      ((SE3ExpTransform.default.inverse_set
          (SE3ExpTransform.default.call zeroAlg)).1 = zeroAlg ∧
        (SE3ExpCompactTransform.default.inverse_set
          (SE3ExpCompactTransform.default.call zeroAlg)).1 = zeroAlg) := by
  have hz : rotNorm zeroAlg < Real.pi := by
    rw [rotNorm_zeroAlg]
    exact Real.pi_pos
  exact ⟨hz, se3_exp_roundtrip SE3ExpTransform.default
    SE3ExpCompactTransform.default zeroAlg hz⟩

/-- C4: for `SE3ExpTransform`, the validity mask returned by `inverse_set` is
all-true: all `2*k_max + 1` enumerated branches are marked valid regardless
of magnitude. -/
theorem full_mask_all_true (t : SE3ExpTransform) (y : SE3Group) :
    (t.inverse_set y).2.2 = List.replicate (2 * t.k_max + 1) true := by
  show List.replicate (se3_xset (se3_log y) t.k_max).length true = _
  rw [se3_xset_length]

/-- C5: for `SE3ExpCompactTransform`, `inverse_set` always enumerates exactly
one winding in each direction: the branch dimension of both `candidate_xs`
and `validity_mask` is exactly 3, whatever the configured `support_radius`. -/
theorem compact_window_three (t : SE3ExpCompactTransform) (y : SE3Group) :
    (t.inverse_set y).2.1.length = 3 ∧ (t.inverse_set y).2.2.length = 3 := by
  constructor
  · show (maskedFillZero (se3_xset (se3_log y) 1)
        ((se3_xset (se3_log y) 1).map fun c =>
          decide (rotNorm c < t.support_radius))).length = 3
    rw [maskedFillZero_length, List.length_map, se3_xset_length]
    norm_num
  · show ((se3_xset (se3_log y) 1).map fun c =>
        decide (rotNorm c < t.support_radius)).length = 3
    rw [List.length_map, se3_xset_length]

/-- C6: for `SE3ExpBijectiveTransform`, the inverse is single-valued and
returns exactly the principal logarithm `se3_log(y)`: one algebra element,
no branch enumeration, no validity mask. -/
theorem bijective_inverse_principal_log (t : SE3ExpBijectiveTransform)
    (y : SE3Group) : t.inverse y = se3_log y := rfl

/-- C7: the `log_abs_det_jacobian` operations of the three variants are
identical as functions: on every input pair they all return the same
exponential-map Jacobian formula applied to `x`. -/
theorem jacobian_variants_agree (a : SE3ExpTransform)
    (b : SE3ExpCompactTransform) (c : SE3ExpBijectiveTransform) (x : SE3Alg)
    (y : SE3Group) :
    a.log_abs_det_jacobian x y = se3_log_abs_det_jacobian x ∧
      b.log_abs_det_jacobian x y = a.log_abs_det_jacobian x y ∧
      c.log_abs_det_jacobian x y = a.log_abs_det_jacobian x y :=
  ⟨rfl, rfl, rfl⟩

/-- C8 (code_bug): the claim that no transform retains state or cached values
across calls fails on the code for `SE3ExpBijectiveTransform`: its
constructor passes `cache_size = 1` to the `torch.distributions.Transform`
base class. Evaluated at the failing input — a freshly constructed object and
a public forward call at the zero algebra element — the object's cache goes
from empty to holding `(zeroAlg, se3_exp zeroAlg)`, so the call does not
leave the object state unchanged; moreover, with the cache poisoned to pair
the zero element with a group element different from `se3_exp zeroAlg`, the
same public call returns that memoized element, so a cache hit skips
recomputation from the arguments. -/
theorem bijective_cache_retained :
    SE3ExpBijectiveTransform.init.cached_x_y = none ∧
      (SE3ExpBijectiveTransform.init.callS zeroAlg).2.cached_x_y
        = some (zeroAlg, se3_exp zeroAlg) ∧
      ((⟨some (zeroAlg, ⟨oneAlg⟩)⟩ :
          SE3ExpBijectiveTransform).callS zeroAlg).1 = ⟨oneAlg⟩ ∧
      (⟨oneAlg⟩ : SE3Group) ≠ se3_exp zeroAlg := by
  refine ⟨rfl, rfl, ?_, ?_⟩
  · simp [SE3ExpBijectiveTransform.callS]
  · intro h
    have hp : se3_principal zeroAlg = zeroAlg := by
      unfold se3_principal
      rw [if_pos rotNorm_zeroAlg]
    have h1 : oneAlg = zeroAlg := by
      have h2 := congrArg SE3Group.log_val h
      simpa [se3_exp, hp] using h2
    have h0 := congrFun h1 0
    simp [oneAlg, zeroAlg] at h0

/-- C9: in all three variants, `log_abs_det_jacobian x y` does not depend on
its second argument: its value is the same at any two group elements `y1`
and `y2`, matched to `x` or not. -/
theorem jacobian_ignores_y (a : SE3ExpTransform) (b : SE3ExpCompactTransform)
    (c : SE3ExpBijectiveTransform) (x : SE3Alg) (y1 y2 : SE3Group) :
    a.log_abs_det_jacobian x y1 = a.log_abs_det_jacobian x y2 ∧
      b.log_abs_det_jacobian x y1 = b.log_abs_det_jacobian x y2 ∧
      c.log_abs_det_jacobian x y1 = c.log_abs_det_jacobian x y2 :=
  ⟨rfl, rfl, rfl⟩

/-- C10: for `SE3ExpCompactTransform`, the `representative_x` returned by
`inverse_set(y)` is the raw principal logarithm `se3_log(y)`, unconditionally
— in particular it is returned unmodified (never zero-filled or masked) even
when the principal branch itself is masked out. -/
theorem compact_representative_raw (t : SE3ExpCompactTransform)
    (y : SE3Group) : (t.inverse_set y).1 = se3_log y := rfl

/-- C2 counterexample: for the default-configured compact transform at the
identity group element, branch 0 (winding -1) has its mask entry false, yet
the returned (zero-filled) candidate at that slot has rotational norm
`0 < 2*pi`: the claimed equivalence between the mask and the norm of the
returned candidate fails. -/
theorem compact_mask_iff_counterexample :
    ¬ ((SE3ExpCompactTransform.default.inverse_set ⟨zeroAlg⟩).2.2.getD 0 false
          = true ↔
        rotNorm
            ((SE3ExpCompactTransform.default.inverse_set
              ⟨zeroAlg⟩).2.1.getD 0 zeroAlg)
          < SE3ExpCompactTransform.default.support_radius) := by
  intro h
  have hm : (SE3ExpCompactTransform.default.inverse_set
      ⟨zeroAlg⟩).2.2.getD 0 false = false := by
    show ((se3_xset zeroAlg 1).map fun c =>
        decide (rotNorm c
          < SE3ExpCompactTransform.default.support_radius)).getD 0 false
      = false
    rw [se3_xset_one]
    simp [rotNorm_shift_zero_neg_one, SE3ExpCompactTransform.default]
  have hc : (SE3ExpCompactTransform.default.inverse_set
      ⟨zeroAlg⟩).2.1.getD 0 zeroAlg = zeroAlg := by
    show (maskedFillZero (se3_xset zeroAlg 1)
        ((se3_xset zeroAlg 1).map fun c =>
          decide (rotNorm c
            < SE3ExpCompactTransform.default.support_radius))).getD 0 zeroAlg
      = zeroAlg
    rw [se3_xset_one]
    simp [maskedFillZero, rotNorm_shift_zero_neg_one,
      SE3ExpCompactTransform.default]
  rw [hm, hc, rotNorm_zeroAlg] at h
  have h2 : (0 : ℝ) < SE3ExpCompactTransform.default.support_radius := by
    show (0 : ℝ) < 2 * Real.pi
    positivity
  have hft := h.mpr h2
  simp at hft

/-- C2 (amended): for `SE3ExpCompactTransform`, the validity-mask entry `i`
returned by `inverse_set(y)` is true if and only if the rotational norm of
the winding-`i - 1` candidate as enumerated before zero-filling (the entry
`i` of `se3_xset(se3_log(y), 1)`) is strictly below `support_radius`; the
returned `candidate_xs[i]` itself equals that candidate only on mask-true
slots, the mask-false slots having been zero-filled. -/
theorem compact_mask_iff_prefill (t : SE3ExpCompactTransform) (y : SE3Group)
    (i : ℕ) (hi : i < 3) :
    (t.inverse_set y).2.2.getD i false = true ↔
      rotNorm ((se3_xset (se3_log y) 1).getD i zeroAlg)
        < t.support_radius := by
  show ((se3_xset (se3_log y) 1).map fun c =>
      decide (rotNorm c < t.support_radius)).getD i false = true ↔ _
  rw [se3_xset_one]
  interval_cases i <;> simp

/-- Witness for the amended C2 at the default compact transform, the identity
group element and the principal branch `i = 1`. -/
theorem compact_mask_iff_prefill_witness :
    1 < 3 ∧
      ((SE3ExpCompactTransform.default.inverse_set
            ⟨zeroAlg⟩).2.2.getD 1 false = true ↔
        rotNorm ((se3_xset (se3_log (⟨zeroAlg⟩ : SE3Group)) 1).getD 1 zeroAlg)
          < SE3ExpCompactTransform.default.support_radius) :=
  ⟨by norm_num, compact_mask_iff_prefill SE3ExpCompactTransform.default
    ⟨zeroAlg⟩ 1 (by norm_num)⟩

/-- C3: for `SE3ExpCompactTransform`, every candidate slot of the returned
`candidate_xs` whose validity-mask entry is false holds the all-zero algebra
element: invalid branches are zero-filled, never left as arbitrary values. -/
theorem compact_zero_fill (t : SE3ExpCompactTransform) (y : SE3Group)
    (i : ℕ) (hi : i < 3)
    (hm : (t.inverse_set y).2.2.getD i false = false) :
    (t.inverse_set y).2.1.getD i zeroAlg = zeroAlg := by
  revert hm
  show ((se3_xset (se3_log y) 1).map fun c =>
      decide (rotNorm c < t.support_radius)).getD i false = false →
    (maskedFillZero (se3_xset (se3_log y) 1)
      ((se3_xset (se3_log y) 1).map fun c =>
        decide (rotNorm c < t.support_radius))).getD i zeroAlg = zeroAlg
  rw [se3_xset_one]
  interval_cases i <;> intro h <;> simp at h <;> simp [maskedFillZero, h]

/-- Witness for C3 at a compact transform of support radius 0 (every branch
masked out), the identity group element and the principal branch `i = 1`. -/
theorem compact_zero_fill_witness :
    (1 < 3 ∧
        ((⟨0⟩ : SE3ExpCompactTransform).inverse_set
          ⟨zeroAlg⟩).2.2.getD 1 false = false) ∧
      ((⟨0⟩ : SE3ExpCompactTransform).inverse_set
        ⟨zeroAlg⟩).2.1.getD 1 zeroAlg = zeroAlg := by
  have hm : ((⟨0⟩ : SE3ExpCompactTransform).inverse_set
      ⟨zeroAlg⟩).2.2.getD 1 false = false := by
    show ((se3_xset zeroAlg 1).map fun c =>
        decide (rotNorm c
          < (⟨0⟩ : SE3ExpCompactTransform).support_radius)).getD 1 false
      = false
    rw [se3_xset_one]
    simp [rotNorm_shift_zero_zero]
  exact ⟨⟨by norm_num, hm⟩,
    compact_zero_fill ⟨0⟩ ⟨zeroAlg⟩ 1 (by norm_num) hm⟩
